import Mathlib

/-!
# The Clox scanner (`scanner.c`): a shallow embedding

The C scanner keeps three globals (`start`, `current`, `line`) and reads the
source through the two pointers.  Here

* the memory object the source pointer points into is a `List Int` (`buf`):
  the characters of the text, its terminating NUL, and whatever bytes of the
  same array follow it.  A character is the `int` value C compares (so the
  embedding does not depend on whether `char` is signed);
* `start` and `current` are offsets into `buf`;
* a read at an offset outside `buf` is undefined behaviour in C; the
  embedding stops there with `Res.fault`, recording the scanner state in which
  the read was attempted;
* every C loop takes a `fuel` argument bounding its number of iterations and
  answers `Res.timeout` when it is used up;
* the `int` line counter is an unbounded `Int`;
* `debugPrint` (from `console.h`) writes to a trace sink and has no effect on
  the scanner, it is left out.

Character codes used below: NUL 0, tab 9, newline 10, carriage return 13,
space 32, `!` 33, `"` 34, `(` 40, `)` 41, `*` 42, `+` 43, `,` 44, `-` 45,
`.` 46, `/` 47, `0` 48, `9` 57, `;` 59, `<` 60, `=` 61, `>` 62, `@` 64,
`A` 65, `Z` 90, `_` 95, `a` 97, `z` 122, `{` 123, `}` 125.
-/

namespace Clox

/-- Modelled from the spec: the token kind enumeration of `scanner.h`, which is
not among the sources; the constructors are the names `scanner.c` uses, in the
order of section 6 of the specification. -/
inductive TokenType where
  | TOKEN_LEFT_PAREN | TOKEN_RIGHT_PAREN | TOKEN_LEFT_BRACE | TOKEN_RIGHT_BRACE
  | TOKEN_SEMICOLON | TOKEN_COMMA | TOKEN_DOT | TOKEN_PLUS | TOKEN_MINUS
  | TOKEN_SLASH | TOKEN_STAR
  | TOKEN_BANG | TOKEN_BANG_EQUAL | TOKEN_EQUAL | TOKEN_EQUAL_EQUAL
  | TOKEN_LESS | TOKEN_LESS_EQUAL | TOKEN_GREATER | TOKEN_GREATER_EQUAL
  | TOKEN_IDENTIFIER | TOKEN_STRING | TOKEN_NUMBER
  | TOKEN_AND | TOKEN_CLASS | TOKEN_ELSE | TOKEN_FALSE | TOKEN_FOR | TOKEN_FUN
  | TOKEN_IF | TOKEN_NIL | TOKEN_OR | TOKEN_PRINT | TOKEN_RETURN | TOKEN_SUPER
  | TOKEN_VAR | TOKEN_WHILE
  | TOKEN_ERROR | TOKEN_EOF
  deriving DecidableEq

open TokenType

/-- The target of a token's `start` pointer: an offset into the source buffer
(`makeToken`) or a static diagnostic message (`errorToken`). -/
inductive LexemeStart where
  | source (offset : Nat)
  | message (text : String)
  deriving DecidableEq

/-- Modelled from the spec: the `Token` record of `scanner.h`, with the four
fields `scanner.c` assigns (`type`, `start`, `length`, `line`). -/
structure Token where
  type : TokenType
  start : LexemeStart
  length : Int
  line : Int
  deriving DecidableEq

/-- The `Scanner` struct of `scanner.c`; the two pointers are offsets into the
source buffer. -/
structure Scanner where
  start : Nat
  current : Nat
  line : Int
  deriving DecidableEq

/-- Outcome of running a piece of the scanner. -/
inductive Res (α : Type) where
  | ok (a : α)
  | fault (s : Scanner)
  | timeout
  deriving DecidableEq

namespace Res

/-- Sequencing: a fault or a timeout ends the run. -/
def bind {α β : Type} (x : Res α) (f : α → Res β) : Res β :=
  match x with
  | ok a => f a
  | fault s => fault s
  | timeout => timeout

instance : Monad Res where
  pure := Res.ok
  bind := Res.bind

/-- Whether the run returned a value. -/
def isOk {α : Type} : Res α → Bool
  | ok _ => true
  | _ => false

end Res

/-- The `initScanner` function; the source pointer is offset 0 of the buffer. -/
def initScanner : Scanner := { start := 0, current := 0, line := 1 }

/-- A read of the character at offset `i`, attempted in state `s`. -/
def readAt (buf : List Int) (s : Scanner) (i : Nat) : Res Int :=
  match buf[i]? with
  | some c => Res.ok c
  | none => Res.fault s

/-- The `peek` function: `*scanner.current`. -/
def peek (buf : List Int) (s : Scanner) : Res Int := readAt buf s s.current

/-- The `isAtEnd` function: `*scanner.current == 0`. -/
def isAtEnd (buf : List Int) (s : Scanner) : Res Bool := do
  let c ← peek buf s
  pure (decide (c = 0))

/-- The `match` function of `scanner.c` (`match` is a Lean keyword). -/
def matchChar (buf : List Int) (s : Scanner) (expected : Int) : Res (Bool × Scanner) := do
  if (← isAtEnd buf s) then pure (false, s)
  else
    let c ← peek buf s
    if c ≠ expected then pure (false, s)
    else pure (true, { s with current := s.current + 1 })

/-- The `isDigit` function: `c >= 48 && c <= 57`. -/
def isDigit (c : Int) : Bool := decide (c ≥ 48) && decide (c ≤ 57)

/-- The `isAlpha` function, as written in the source:
`(c <= 97 && c <= 122) || (c >= 65 && c <= 90) || c == 95`. -/
def isAlpha (c : Int) : Bool :=
  (decide (c ≤ 97) && decide (c ≤ 122)) ||
  (decide (c ≥ 65) && decide (c ≤ 90)) ||
  decide (c = 95)

/-- The `advance` function: `scanner.current++; return scanner.current[-1];`. -/
def advance (buf : List Int) (s : Scanner) : Res (Int × Scanner) := do
  let c ← readAt buf s s.current
  pure (c, { s with current := s.current + 1 })

/-- The `peekNext` function: NUL at the end, `scanner.current[1]` otherwise. -/
def peekNext (buf : List Int) (s : Scanner) : Res Int := do
  if (← isAtEnd buf s) then pure 0
  else readAt buf s (s.current + 1)

/-- The comment loop of `skipWhiteSpace`:
`while (peek() != 10 && !isAtEnd()) advance();`. -/
def skipComment : Nat → List Int → Scanner → Res Scanner
  | 0, _, _ => Res.timeout
  | fuel + 1, buf, s => do
    let c ← peek buf s
    if c ≠ 10 then
      if (← isAtEnd buf s) then pure s
      else
        let (_, s1) ← advance buf s
        skipComment fuel buf s1
    else pure s

/-- The `skipWhiteSpace` function: a `for (;;)` over a switch on `peek()`. -/
def skipWhiteSpace : Nat → List Int → Scanner → Res Scanner
  | 0, _, _ => Res.timeout
  | fuel + 1, buf, s => do
    let c ← peek buf s
    if c = 32 ∨ c = 13 ∨ c = 9 then
      let (_, s1) ← advance buf s
      skipWhiteSpace fuel buf s1
    else if c = 10 then
      let (_, s1) ← advance buf { s with line := s.line + 1 }
      skipWhiteSpace fuel buf s1
    else if c = 47 then
      if (← peekNext buf s) = 47 then
        let s1 ← skipComment fuel buf s
        skipWhiteSpace fuel buf s1
      else pure s
    else pure s

/-- The `memcmp(scanner.start + off, rest, length) == 0` test of `checkKeyword`
(a range that leaves the buffer compares unequal; `checkKeyword` only reaches
the test for a range that ends at `current`). -/
def memcmpEq (buf : List Int) (off : Nat) (rest : List Int) (length : Nat) : Bool :=
  decide ((buf.drop off).take length = rest.take length)

/-- The `checkKeyword` function. -/
def checkKeyword (buf : List Int) (s : Scanner) (start length : Nat) (rest : List Int)
    (type : TokenType) : TokenType :=
  if (s.current : Int) - (s.start : Int) = (start : Int) + (length : Int) ∧
      memcmpEq buf (s.start + start) rest length = true then type
  else TOKEN_IDENTIFIER

/-- The `errorToken` function; `strlen` of the (ASCII) message is its length. -/
def errorToken (message : String) (s : Scanner) : Token :=
  { type := TOKEN_ERROR, start := LexemeStart.message message,
    length := (message.length : Int), line := s.line }

/-- The `makeToken` function. -/
def makeToken (type : TokenType) (s : Scanner) : Token :=
  { type := type, start := LexemeStart.source s.start,
    length := (s.current : Int) - (s.start : Int), line := s.line }

/-- The loop of `string`, as written in the source:
`while (peek() != 34 && !isAtEnd()) { if (peek() != 10) scanner.line++; }`.
The body does not call `advance`. -/
def stringLoop : Nat → List Int → Scanner → Res Scanner
  | 0, _, _ => Res.timeout
  | fuel + 1, buf, s => do
    let c ← peek buf s
    if c ≠ 34 then
      if (← isAtEnd buf s) then pure s
      else
        let c1 ← peek buf s
        stringLoop fuel buf (if c1 ≠ 10 then { s with line := s.line + 1 } else s)
    else pure s

/-- The `string` function. -/
def string (fuel : Nat) (buf : List Int) (s : Scanner) : Res (Token × Scanner) := do
  let s1 ← stringLoop fuel buf s
  if (← isAtEnd buf s1) then pure (errorToken "Unterminated string." s1, s1)
  else
    let (_, s2) ← advance buf s1
    pure (makeToken TOKEN_STRING s2, s2)

/-- The digit loop of `number`: `while (isDigit(peek())) advance();`. -/
def digits : Nat → List Int → Scanner → Res Scanner
  | 0, _, _ => Res.timeout
  | fuel + 1, buf, s => do
    let c ← peek buf s
    if isDigit c then
      let (_, s1) ← advance buf s
      digits fuel buf s1
    else pure s

/-- The `number` function. -/
def number (fuel : Nat) (buf : List Int) (s : Scanner) : Res (Token × Scanner) := do
  let s1 ← digits fuel buf s
  let c ← peek buf s1
  if c = 46 then
    if isDigit (← peekNext buf s1) then
      let (_, s2) ← advance buf s1
      let s3 ← digits fuel buf s2
      pure (makeToken TOKEN_NUMBER s3, s3)
    else pure (makeToken TOKEN_NUMBER s1, s1)
  else pure (makeToken TOKEN_NUMBER s1, s1)

/-- The `identiferType` function (the name is the source's).  The switch on
`scanner.start[0]` has no `break` at the end of the case for `f` (102), so a
lexeme that starts with `f` and is not dispatched on its second character runs
into the case for `i` (105). -/
def identiferType (buf : List Int) (s : Scanner) : Res TokenType := do
  let c ← readAt buf s s.start
  if c = 97 then pure (checkKeyword buf s 1 2 [110, 100] TOKEN_AND)
  else if c = 99 then pure (checkKeyword buf s 1 4 [108, 97, 115, 115] TOKEN_CLASS)
  else if c = 101 then pure (checkKeyword buf s 1 3 [108, 115, 101] TOKEN_ELSE)
  else if c = 102 then
    if (s.current : Int) - (s.start : Int) > 1 then
      let d ← readAt buf s (s.start + 1)
      if d = 97 then pure (checkKeyword buf s 2 3 [108, 115, 101] TOKEN_FALSE)
      else if d = 111 then pure (checkKeyword buf s 2 1 [114] TOKEN_FOR)
      else if d = 117 then pure (checkKeyword buf s 2 1 [110] TOKEN_FUN)
      else pure (checkKeyword buf s 1 1 [102] TOKEN_IF)
    else pure (checkKeyword buf s 1 1 [102] TOKEN_IF)
  else if c = 105 then pure (checkKeyword buf s 1 1 [102] TOKEN_IF)
  else if c = 110 then pure (checkKeyword buf s 1 2 [105, 108] TOKEN_NIL)
  else if c = 111 then pure (checkKeyword buf s 1 1 [114] TOKEN_OR)
  else if c = 112 then pure (checkKeyword buf s 1 4 [114, 105, 110, 116] TOKEN_PRINT)
  else if c = 114 then pure (checkKeyword buf s 1 5 [101, 116, 117, 114, 110] TOKEN_RETURN)
  else if c = 115 then pure (checkKeyword buf s 1 4 [117, 112, 101, 114] TOKEN_SUPER)
  else if c = 118 then pure (checkKeyword buf s 1 2 [97, 114] TOKEN_VAR)
  else if c = 119 then pure (checkKeyword buf s 1 4 [104, 105, 108, 101] TOKEN_WHILE)
  else pure TOKEN_IDENTIFIER

/-- The loop of `identifier`: `while (isAlpha(peek()) || isDigit(peek())) advance();`
(both calls of `peek` read the same character). -/
def identifierLoop : Nat → List Int → Scanner → Res Scanner
  | 0, _, _ => Res.timeout
  | fuel + 1, buf, s => do
    let c ← peek buf s
    if isAlpha c || isDigit c then
      let (_, s1) ← advance buf s
      identifierLoop fuel buf s1
    else pure s

/-- The `identifier` function. -/
def identifier (fuel : Nat) (buf : List Int) (s : Scanner) : Res (Token × Scanner) := do
  let s1 ← identifierLoop fuel buf s
  let t ← identiferType buf s1
  pure (makeToken t s1, s1)

/-- The `makeToken(match(61) ? two : one)` step of the four operator cases of
`scanToken`. -/
def operatorToken (buf : List Int) (s : Scanner) (two one : TokenType) :
    Res (Token × Scanner) := do
  let (m, s1) ← matchChar buf s 61
  pure (makeToken (if m then two else one) s1, s1)

/-- The `switch (c)` statement of `scanToken` and the `errorToken` return that
follows it, entered after `c = advance()` when `c` is neither `isAlpha` nor
`isDigit`.  The case for `<` (60) names `TOKEN_EQUAL`, as the source does. -/
def scanSwitch (fuel : Nat) (buf : List Int) (s3 : Scanner) (c : Int) :
    Res (Token × Scanner) :=
  if c = 40 then pure (makeToken TOKEN_LEFT_PAREN s3, s3)
  else if c = 41 then pure (makeToken TOKEN_RIGHT_PAREN s3, s3)
  else if c = 123 then pure (makeToken TOKEN_LEFT_BRACE s3, s3)
  else if c = 125 then pure (makeToken TOKEN_RIGHT_BRACE s3, s3)
  else if c = 59 then pure (makeToken TOKEN_SEMICOLON s3, s3)
  else if c = 44 then pure (makeToken TOKEN_COMMA s3, s3)
  else if c = 46 then pure (makeToken TOKEN_DOT s3, s3)
  else if c = 43 then pure (makeToken TOKEN_PLUS s3, s3)
  else if c = 45 then pure (makeToken TOKEN_MINUS s3, s3)
  else if c = 47 then pure (makeToken TOKEN_SLASH s3, s3)
  else if c = 42 then pure (makeToken TOKEN_STAR s3, s3)
  else if c = 33 then operatorToken buf s3 TOKEN_BANG_EQUAL TOKEN_BANG
  else if c = 61 then operatorToken buf s3 TOKEN_EQUAL_EQUAL TOKEN_EQUAL
  else if c = 60 then operatorToken buf s3 TOKEN_LESS_EQUAL TOKEN_EQUAL
  else if c = 62 then operatorToken buf s3 TOKEN_GREATER_EQUAL TOKEN_GREATER
  else if c = 34 then string fuel buf s3
  else pure (errorToken "Unexpected character." s3, s3)

/-- The `scanToken` function.  It returns the token and the scanner state it
leaves behind. -/
def scanToken (fuel : Nat) (buf : List Int) (s : Scanner) : Res (Token × Scanner) := do
  let s1 ← skipWhiteSpace fuel buf s
  let s2 : Scanner := { s1 with start := s1.current }
  if (← isAtEnd buf s2) then pure (makeToken TOKEN_EOF s2, s2)
  else
    let (c, s3) ← advance buf s2
    if isAlpha c then identifier fuel buf s3
    else if isDigit c then number fuel buf s3
    else scanSwitch fuel buf s3 c

/-- The caller's loop: `scanToken` is called until it returns `TOKEN_EOF`, at
most `calls` times; the tokens returned, in order (the last is the EOF token
when one was reached), and the final scanner state. -/
def scanTokens : Nat → Nat → List Int → Scanner → Res (List Token × Scanner)
  | 0, _, _, s => pure ([], s)
  | calls + 1, fuel, buf, s => do
    let (t, s1) ← scanToken fuel buf s
    if t.type = TOKEN_EOF then pure ([t], s1)
    else
      let (ts, s2) ← scanTokens calls fuel buf s1
      pure (t :: ts, s2)

/-- The C string with the given ASCII text: its characters and the
terminating NUL, in an array of exactly that size. -/
def cstr (text : String) : List Int :=
  text.toList.map (fun c => (c.toNat : Int)) ++ [0]

/-- The `strlen` of the buffer: the number of characters before the first NUL. -/
def strlen (buf : List Int) : Nat := (buf.takeWhile (fun c => decide (c ≠ 0))).length

/-- The reserved words with the token kinds the cases of `identiferType` name
for them. -/
def reservedWords : List (String × TokenType) :=
  [("and", TOKEN_AND), ("class", TOKEN_CLASS), ("else", TOKEN_ELSE),
   ("false", TOKEN_FALSE), ("for", TOKEN_FOR), ("fun", TOKEN_FUN), ("if", TOKEN_IF),
   ("nil", TOKEN_NIL), ("or", TOKEN_OR), ("print", TOKEN_PRINT),
   ("return", TOKEN_RETURN), ("super", TOKEN_SUPER), ("var", TOKEN_VAR),
   ("while", TOKEN_WHILE)]

/-- The token `errorToken` builds for an unexpected character on line `line`. -/
def unexpectedAt (line : Int) : Token :=
  { type := TOKEN_ERROR, start := LexemeStart.message "Unexpected character.",
    length := 21, line := line }

/-- The token `makeToken` builds for the lexeme `[start, start + length)` on
line 1. -/
def tokenAt (type : TokenType) (start : Nat) (length : Int) : Token :=
  { type := type, start := LexemeStart.source start, length := length, line := 1 }

/-- Following the spec's words (algorithm step 1): the number of characters
of the remaining text `rem` that are insignificant, counted from its first
character up to the first one that is neither a space (32), tab (9), carriage
return (13) or newline (10) nor inside a line comment.  A comment starts at two
slashes (47) and runs up to, not including, its newline; `inComment` tells
whether the first character of `rem` is inside one.  A slash that is not
followed by a slash is significant. -/
def insignificant : Bool → List Int → Nat
  | _, [] => 0
  | true, c :: cs => insignificant (decide (c ≠ 10)) cs + 1
  | false, c :: cs =>
    if c = 32 ∨ c = 13 ∨ c = 9 ∨ c = 10 then insignificant false cs + 1
    else if c = 47 ∧ cs.head? = some 47 then insignificant true cs + 1
    else 0

/-- Following the spec's words: the number of newline characters (10) in a
piece of text. -/
def newlines (text : List Int) : Nat := text.count 10

/-- The state of the scanner once `count` more characters, `lines` newlines
among them, have been consumed and counted. -/
def Scanner.consumed (s : Scanner) (count lines : Nat) : Scanner :=
  { s with current := s.current + count, line := s.line + (lines : Int) }

/-- The result of the call of `scanToken` that comes after `n` earlier calls
from state `s`, all of which returned. -/
def nthCall : Nat → Nat → List Int → Scanner → Res (Token × Scanner)
  | 0, fuel, buf, s => scanToken fuel buf s
  | n + 1, fuel, buf, s => do
    let (_, s1) ← scanToken fuel buf s
    nthCall n fuel buf s1

/-! ## The character classes -/

/-- As written, `isAlpha` accepts exactly the characters up to `a` (97): its
first disjunct is `c <= 97 && c <= 122`, and the other two describe characters
below 97. -/
theorem isAlpha_eq (c : Int) : isAlpha c = decide (c ≤ 97) := by
  unfold isAlpha
  by_cases h : c ≤ 97
  · have h2 : c ≤ 122 := by omega
    simp [h, h2]
  · have h1 : ¬ c ≤ 90 := by omega
    have h3 : c ≠ 95 := by omega
    simp [h, h1, h3]

/-- The loop of `string` does not call `advance`: at a character that is
neither the closing quote nor NUL it repeats in the same position, and no
amount of fuel lets it return. -/
theorem stringLoop_stuck (buf : List Int) (c : Int) (hq : c ≠ 34) (h0 : c ≠ 0) :
    ∀ (fuel : Nat) (s : Scanner), buf[s.current]? = some c →
      stringLoop fuel buf s = Res.timeout := by
  intro fuel
  induction fuel with
  | zero => intro s _; rfl
  | succ n ih =>
    intro s hs
    have step : stringLoop (n + 1) buf s
        = stringLoop n buf (if c ≠ 10 then { s with line := s.line + 1 } else s) := by
      simp [stringLoop, peek, readAt, isAtEnd, hs, hq, h0, bind, Res.bind, pure]
    rw [step]
    apply ih
    split <;> exact hs

/-! ## C1 – C10: the contract of `scanToken` on the code -/

/-- C1 (every call of `scanToken` terminates and the scan reaches `TOKEN_EOF`
after at most `length(source)` other tokens) fails on the code.  On the source
`a` the first call returns no token, whatever the fuel: `isAlpha` accepts the
terminating NUL, so the loop of `identifier` steps over it and the next `peek`
reads outside the buffer, with `current = 2`.  When the array holding the text
goes on after the NUL (`a`, NUL, `z`, NUL) the scan does reach an EOF token,
but after two other tokens, for a source of length 1. -/
theorem scan_of_a_returns_no_token :
    (∀ fuel, (scanToken fuel (cstr "a") initScanner).isOk = false) ∧
    (∀ fuel, scanToken (fuel + 2) (cstr "a") initScanner
      = Res.fault { start := 0, current := 2, line := 1 }) ∧
    strlen [97, 0, 122, 0] = 1 ∧
    (∀ fuel, scanTokens 3 (fuel + 2) [97, 0, 122, 0] initScanner
      = Res.ok ([tokenAt TOKEN_IDENTIFIER 0 2, unexpectedAt 1, tokenAt TOKEN_EOF 3 0],
          { start := 3, current := 3, line := 1 })) := by
  refine ⟨?_, ?_, ?_, ?_⟩
  · intro fuel
    rcases fuel with _ | _ | n <;> rfl
  · intro fuel; rfl
  · rfl
  · intro fuel; rfl

/-- C2 (the invariant `start ≤ current ≤ length(source)` is preserved by every
call of `scanToken`) fails on the code.  On the source `_`, in an array that
goes on after the NUL (`_`, NUL, `z`, NUL), the first call returns with
`current = 2` while the source has length 1: the loop of `identifier` has
moved `current` past the terminating NUL.  In an array of exactly two bytes
the same call reads outside the buffer with `current = 2`. -/
theorem scan_moves_current_past_nul :
    strlen [95, 0, 122, 0] = 1 ∧ strlen (cstr "_") = 1 ∧
    (∀ fuel, scanToken (fuel + 2) [95, 0, 122, 0] initScanner
      = Res.ok (tokenAt TOKEN_IDENTIFIER 0 2, { start := 0, current := 2, line := 1 })) ∧
    (∀ fuel, scanToken (fuel + 2) (cstr "_") initScanner
      = Res.fault { start := 0, current := 2, line := 1 }) := by
  refine ⟨rfl, rfl, ?_, ?_⟩ <;> intro fuel <;> rfl

/-- C3 (each reserved word scans to one token of its keyword kind) fails on
the code for all 14 words.  The first call on `and` returns a `TOKEN_IDENTIFIER`
for the one character `a` (`isAlpha` rejects `n`, which ends the lexeme); on
each of the other 13 words, whose first letter is above `a`, it returns the
error token for an unexpected character.  The source `or` scans to two error
tokens and EOF. -/
theorem reserved_words_scan_to_no_keyword :
    (∀ fuel, reservedWords.map (fun p => scanToken (fuel + 1) (cstr p.1) initScanner)
      = Res.ok (tokenAt TOKEN_IDENTIFIER 0 1, { start := 0, current := 1, line := 1 })
        :: List.replicate 13
            (Res.ok (unexpectedAt 1, { start := 0, current := 1, line := 1 }))) ∧
    (∀ fuel, scanTokens 3 (fuel + 1) (cstr "or") initScanner
      = Res.ok ([unexpectedAt 1, unexpectedAt 1, tokenAt TOKEN_EOF 2 0],
          { start := 2, current := 2, line := 1 })) := by
  refine ⟨?_, ?_⟩ <;> intro fuel <;> rfl

/-- C4 (a word of letters, digits and underscores that is not reserved scans
to one `TOKEN_IDENTIFIER` spanning it) fails on the code.  The first call on
each of `orchid`, `forever` and `iffy` returns the error token for an
unexpected character and consumes one character; `orchid` scans to six error
tokens and EOF.  On the word `A1`, all of whose characters `isAlpha` accepts,
the call reads outside the buffer. -/
theorem words_scan_to_no_identifier :
    (∀ fuel, ["orchid", "forever", "iffy"].map
        (fun w => scanToken (fuel + 1) (cstr w) initScanner)
      = List.replicate 3
          (Res.ok (unexpectedAt 1, { start := 0, current := 1, line := 1 }))) ∧
    (∀ fuel, scanTokens 7 (fuel + 1) (cstr "orchid") initScanner
      = Res.ok (List.replicate 6 (unexpectedAt 1) ++ [tokenAt TOKEN_EOF 6 0],
          { start := 6, current := 6, line := 1 })) ∧
    (∀ fuel, (scanToken fuel (cstr "A1") initScanner).isOk = false) := by
  refine ⟨?_, ?_, ?_⟩
  · intro fuel; rfl
  · intro fuel; rfl
  · intro fuel
    rcases fuel with _ | _ | _ | n <;> rfl

/-- C5 (`3.14` scans to one `TOKEN_NUMBER`, `3.` to a `TOKEN_NUMBER` and a
`TOKEN_DOT`) fails on the code.  `isAlpha` accepts the digit `3`, so `scanToken`
calls `identifier` and never `number`; its loop accepts the dot, the digits
and the terminating NUL, and the call reads outside the buffer without
returning a token. -/
theorem numbers_scan_to_no_token :
    (∀ fuel, (scanToken fuel (cstr "3.14") initScanner).isOk = false) ∧
    (∀ fuel, scanToken (fuel + 5) (cstr "3.14") initScanner
      = Res.fault { start := 0, current := 5, line := 1 }) ∧
    (∀ fuel, (scanToken fuel (cstr "3.") initScanner).isOk = false) ∧
    (∀ fuel, scanToken (fuel + 3) (cstr "3.") initScanner
      = Res.fault { start := 0, current := 3, line := 1 }) := by
  refine ⟨?_, ?_, ?_, ?_⟩
  · intro fuel
    rcases fuel with _ | _ | _ | _ | _ | n <;> rfl
  · intro fuel; rfl
  · intro fuel
    rcases fuel with _ | _ | _ | n <;> rfl
  · intro fuel; rfl

/-- C6 (a quoted string scans to one `TOKEN_STRING` that includes both quotes)
fails on the code.  `isAlpha` accepts the double quote, so the first call on
the four characters `"hi"` goes to `identifier` and returns a
`TOKEN_IDENTIFIER` of length 1 for the opening quote; `string` is not called.
Entered directly just past the opening quote, `string` does not return either:
its loop never advances. -/
theorem quoted_string_scans_to_no_string :
    (∀ fuel, scanToken (fuel + 1) (cstr "\"hi\"") initScanner
      = Res.ok (tokenAt TOKEN_IDENTIFIER 0 1, { start := 0, current := 1, line := 1 })) ∧
    (∀ fuel, string fuel (cstr "\"hi\"") { start := 0, current := 1, line := 1 }
      = Res.timeout) := by
  refine ⟨fun fuel => rfl, fun fuel => ?_⟩
  have h := stringLoop_stuck (cstr "\"hi\"") 104 (by decide) (by decide) fuel
    { start := 0, current := 1, line := 1 } rfl
  simp [string, h, bind, Res.bind]

/-- C7 (an unterminated string scans to the error token `Unterminated string.`
and leaves the cursor at the end of the source) fails on the code.  The first
call on the three characters `"hi` returns a `TOKEN_IDENTIFIER` of length 1 for
the quote and leaves `current = 1`; the whole scan is that token, two error
tokens for unexpected characters and EOF, and the message
`Unterminated string.` never appears.  Entered directly just past the quote,
`string` does not return. -/
theorem unterminated_string_scans_to_no_error :
    (∀ fuel, scanToken (fuel + 1) (cstr "\"hi") initScanner
      = Res.ok (tokenAt TOKEN_IDENTIFIER 0 1, { start := 0, current := 1, line := 1 })) ∧
    (∀ fuel, scanTokens 4 (fuel + 1) (cstr "\"hi") initScanner
      = Res.ok ([tokenAt TOKEN_IDENTIFIER 0 1, unexpectedAt 1, unexpectedAt 1,
            tokenAt TOKEN_EOF 3 0],
          { start := 3, current := 3, line := 1 })) ∧
    (∀ fuel, string fuel (cstr "\"hi") { start := 0, current := 1, line := 1 }
      = Res.timeout) := by
  refine ⟨fun fuel => rfl, fun fuel => rfl, fun fuel => ?_⟩
  have h := stringLoop_stuck (cstr "\"hi") 104 (by decide) (by decide) fuel
    { start := 0, current := 1, line := 1 } rfl
  simp [string, h, bind, Res.bind]

/-- C8 (a character outside the scanner's alphabet, such as `@`, scans to the
error token `Unexpected character.` with `current` one past it) fails on the
code.  `isAlpha` accepts `@` (64), so the first call on `@b` returns a
`TOKEN_IDENTIFIER` of length 1, and on the source `@` alone the loop of
`identifier` steps over the NUL and the call reads outside the buffer. -/
theorem at_sign_scans_to_no_error :
    (∀ fuel, scanToken (fuel + 1) (cstr "@b") initScanner
      = Res.ok (tokenAt TOKEN_IDENTIFIER 0 1, { start := 0, current := 1, line := 1 })) ∧
    (∀ fuel, (scanToken fuel (cstr "@") initScanner).isOk = false) ∧
    (∀ fuel, scanToken (fuel + 2) (cstr "@") initScanner
      = Res.fault { start := 0, current := 2, line := 1 }) := by
  refine ⟨fun fuel => rfl, fun fuel => ?_, fun fuel => rfl⟩
  rcases fuel with _ | _ | n <;> rfl

/-- C9 (`!=`, `==`, `<=`, `>=` each scan to one two-character operator token)
fails on the code.  `isAlpha` accepts `!`, `=`, `<` and `>`, so `scanToken`
calls `identifier` and never reaches the operator cases of its switch: followed
by `b` each pair comes back as a `TOKEN_IDENTIFIER` of length 2, and as the
whole source each makes the call read outside the buffer. -/
theorem compound_operators_scan_to_no_operator :
    (∀ fuel, ["!=b", "==b", "<=b", ">=b"].map
        (fun w => scanToken (fuel + 2) (cstr w) initScanner)
      = List.replicate 4
          (Res.ok (tokenAt TOKEN_IDENTIFIER 0 2, { start := 0, current := 2, line := 1 }))) ∧
    (∀ fuel, ["!=", "==", "<=", ">="].map
        (fun w => (scanToken fuel (cstr w) initScanner).isOk)
      = List.replicate 4 false) ∧
    (∀ fuel, ["!=", "==", "<=", ">="].map
        (fun w => scanToken (fuel + 3) (cstr w) initScanner)
      = List.replicate 4 (Res.fault { start := 0, current := 3, line := 1 })) := by
  refine ⟨fun fuel => rfl, fun fuel => ?_, fun fuel => rfl⟩
  rcases fuel with _ | _ | _ | n <;> rfl

/-- C10 (`!`, `=`, `<`, `>` not followed by `=` each scan to their own
one-character operator token, `<` to `TOKEN_LESS`) fails on the code.
`isAlpha` accepts the four characters, so followed by `b` each comes back as a
`TOKEN_IDENTIFIER` of length 1, and as the whole source each makes the call
read outside the buffer.  The switch that `scanToken` does not reach for them
has a second defect: its case for `<` returns `TOKEN_EQUAL`, the token of its
case for `=`, and no case returns `TOKEN_LESS`. -/
theorem single_operators_scan_to_no_operator :
    (∀ fuel, ["!b", "=b", "<b", ">b"].map
        (fun w => scanToken (fuel + 1) (cstr w) initScanner)
      = List.replicate 4
          (Res.ok (tokenAt TOKEN_IDENTIFIER 0 1, { start := 0, current := 1, line := 1 }))) ∧
    (∀ fuel, ["!", "=", "<", ">"].map
        (fun w => (scanToken fuel (cstr w) initScanner).isOk)
      = List.replicate 4 false) ∧
    (∀ fuel, scanSwitch fuel (cstr "<") { start := 0, current := 1, line := 1 } 60
      = Res.ok (tokenAt TOKEN_EQUAL 0 1, { start := 0, current := 1, line := 1 })) ∧
    (∀ fuel, scanSwitch fuel (cstr "=") { start := 0, current := 1, line := 1 } 61
      = Res.ok (tokenAt TOKEN_EQUAL 0 1, { start := 0, current := 1, line := 1 })) := by
  refine ⟨fun fuel => rfl, fun fuel => ?_, fun fuel => rfl, fun fuel => rfl⟩
  rcases fuel with _ | _ | n <;> rfl

/-! ## Sequencing of outcomes -/

@[simp] theorem ok_bind {α β : Type} (a : α) (f : α → Res β) :
    (Res.ok a >>= f) = f a := rfl

@[simp] theorem fault_bind {α β : Type} (s : Scanner) (f : α → Res β) :
    ((Res.fault s : Res α) >>= f) = Res.fault s := rfl

@[simp] theorem timeout_bind {α β : Type} (f : α → Res β) :
    ((Res.timeout : Res α) >>= f) = Res.timeout := rfl

@[simp] theorem pure_eq_ok {α : Type} (a : α) : (pure a : Res α) = Res.ok a := rfl

/-- A sequence returns exactly when both of its parts do. -/
theorem bind_eq_ok {α β : Type} (x : Res α) (f : α → Res β) (b : β) :
    (x >>= f) = Res.ok b ↔ ∃ a, x = Res.ok a ∧ f a = Res.ok b := by
  cases x with
  | ok a => simp
  | fault s => simp
  | timeout => simp

/-- A read returns the character stored at the offset. -/
theorem readAt_eq_ok (buf : List Int) (s : Scanner) (i : Nat) (c : Int) :
    readAt buf s i = Res.ok c ↔ buf[i]? = some c := by
  unfold readAt
  cases h : buf[i]? <;> simp

/-! ## C11 – C13: punctuation, lines and comments on the code -/

/-- C11 (each of the eleven punctuation characters scans to its own
one-character token, whatever follows) fails on the code.  `isAlpha` accepts
the nine characters `(` `)` `;` `,` `.` `+` `-` `*` `/`, all below `a`, so
`scanToken` calls `identifier` for them: followed by `b` each comes back as a
`TOKEN_IDENTIFIER`, and `(` as the whole source makes the call read outside
the buffer.  Only the two braces, which are above `a`, reach the switch and
scan as the claim says. -/
theorem punctuation_scans_to_identifier :
    (∀ fuel, ["(b", ")b", ";b", ",b", ".b", "+b", "-b", "*b", "/b"].map
        (fun w => scanToken (fuel + 1) (cstr w) initScanner)
      = List.replicate 9
          (Res.ok (tokenAt TOKEN_IDENTIFIER 0 1, { start := 0, current := 1, line := 1 }))) ∧
    (∀ fuel, (scanToken fuel (cstr "(") initScanner).isOk = false) ∧
    (∀ fuel, scanToken (fuel + 3) (cstr "()") initScanner
      = Res.fault { start := 0, current := 3, line := 1 }) ∧
    (∀ fuel, ["\x7bb", "\x7db"].map (fun w => scanToken (fuel + 1) (cstr w) initScanner)
      = [Res.ok (tokenAt TOKEN_LEFT_BRACE 0 1, { start := 0, current := 1, line := 1 }),
         Res.ok (tokenAt TOKEN_RIGHT_BRACE 0 1, { start := 0, current := 1, line := 1 })]) := by
  refine ⟨fun fuel => rfl, fun fuel => ?_, fun fuel => rfl, fun fuel => rfl⟩
  rcases fuel with _ | _ | n <;> rfl

/-- C12 (the line of every non-error token is 1 plus the number of newlines
before its lexeme; `a`, newline, `b`, newline, `c` scans to identifiers on
lines 1, 2 and 3) fails on the code.  `isAlpha` accepts the newline (10), so
`identifier` takes the first newline into the lexeme of `a` without counting
it, and it rejects `b` and `c`: the scan is an identifier of length 2 on line
1, error tokens on lines 1 and 2, and an EOF token at offset 5 carrying line 2
although two newlines precede it.  Likewise the brace in `a`, newline, `{`
stands after one newline and is reported on line 1. -/
theorem lines_miss_newlines_in_identifiers :
    (∀ fuel, scanTokens 4 (fuel + 2) (cstr "a\nb\nc") initScanner
      = Res.ok ([{ type := TOKEN_IDENTIFIER, start := LexemeStart.source 0, length := 2,
                   line := 1 },
                 unexpectedAt 1, unexpectedAt 2,
                 { type := TOKEN_EOF, start := LexemeStart.source 5, length := 0, line := 2 }],
          { start := 5, current := 5, line := 2 })) ∧
    newlines ((cstr "a\nb\nc").take 5) = 2 ∧
    (∀ fuel, scanTokens 3 (fuel + 2) (cstr "a\n\x7b") initScanner
      = Res.ok ([{ type := TOKEN_IDENTIFIER, start := LexemeStart.source 0, length := 2,
                   line := 1 },
                 { type := TOKEN_LEFT_BRACE, start := LexemeStart.source 2, length := 1,
                   line := 1 },
                 { type := TOKEN_EOF, start := LexemeStart.source 3, length := 0, line := 1 }],
          { start := 3, current := 3, line := 1 })) ∧
    newlines ((cstr "a\n\x7b").take 2) = 1 := by
  refine ⟨fun fuel => rfl, by decide, fun fuel => rfl, by decide⟩

/-- C13 (a line comment contributes no token; the comment `// x`, a newline
and `1` scan to one `TOKEN_NUMBER` on line 2 and EOF) fails on the code at the
claim's own example.  `skipWhiteSpace` does skip the comment and counts its
newline, but `isAlpha` accepts `1` and the terminating NUL, so `identifier` is
called, steps over the NUL and reads outside the buffer with the line at 2: no
token is returned.  With a brace for the `1` the scan is a `TOKEN_LEFT_BRACE`
on line 2 and EOF. -/
theorem comment_then_number_returns_no_token :
    (∀ fuel, (scanToken fuel (cstr "// x\n1") initScanner).isOk = false) ∧
    (∀ fuel, scanToken (fuel + 6) (cstr "// x\n1") initScanner
      = Res.fault { start := 5, current := 7, line := 2 }) ∧
    (∀ fuel, scanTokens 2 (fuel + 6) (cstr "// x\n\x7b") initScanner
      = Res.ok ([{ type := TOKEN_LEFT_BRACE, start := LexemeStart.source 5, length := 1,
                   line := 2 },
                 { type := TOKEN_EOF, start := LexemeStart.source 6, length := 0, line := 2 }],
          { start := 6, current := 6, line := 2 })) := by
  refine ⟨fun fuel => ?_, fun fuel => rfl, fun fuel => rfl⟩
  rcases fuel with _ | _ | _ | _ | _ | _ | n <;> rfl

/-! ## How the loops move the cursor -/

/-- One turn of the comment loop at the character `c`. -/
theorem skipComment_step (buf : List Int) (n : Nat) (s : Scanner) (c : Int)
    (hp : buf[s.current]? = some c) :
    skipComment (n + 1) buf s =
      if c = 10 ∨ c = 0 then Res.ok s
      else skipComment n buf { s with current := s.current + 1 } := by
  simp only [skipComment, peek, readAt, isAtEnd, advance, hp, bind, Res.bind, pure]
  by_cases h10 : c = 10
  · simp [h10]
  · by_cases h0 : c = 0 <;> simp [h10, h0]

/-- One turn of the loop of `skipWhiteSpace` at the character `c`. -/
theorem skipWhiteSpace_step (buf : List Int) (n : Nat) (s : Scanner) (c : Int)
    (hp : buf[s.current]? = some c) :
    skipWhiteSpace (n + 1) buf s =
      if c = 32 ∨ c = 13 ∨ c = 9 then skipWhiteSpace n buf { s with current := s.current + 1 }
      else if c = 10 then
        skipWhiteSpace n buf { s with current := s.current + 1, line := s.line + 1 }
      else if c = 47 then
        match buf[s.current + 1]? with
        | some d =>
          if d = 47 then Res.bind (skipComment n buf s) (skipWhiteSpace n buf) else Res.ok s
        | none => Res.fault s
      else Res.ok s := by
  simp only [skipWhiteSpace, peek, readAt, isAtEnd, advance, peekNext, hp, bind, Res.bind, pure]
  by_cases h1 : c = 32 ∨ c = 13 ∨ c = 9
  · simp [h1]
  · by_cases h2 : c = 10
    · simp [h1, h2]
    · by_cases h3 : c = 47
      · subst h3
        cases hq : buf[s.current + 1]? with
        | none => simp
        | some d => by_cases h4 : d = 47 <;> simp [h4]
      · simp [h1, h2, h3]

/-- The comment loop only moves `current`, and only forward. -/
theorem skipComment_mono (buf : List Int) :
    ∀ (fuel : Nat) (s s1 : Scanner), skipComment fuel buf s = Res.ok s1 →
      s1.start = s.start ∧ s.current ≤ s1.current ∧ s1.line = s.line := by
  intro fuel
  induction fuel with
  | zero => intro s s1 h; simp [skipComment] at h
  | succ n ih =>
    intro s s1 h
    cases hp : buf[s.current]? with
    | none => simp [skipComment, peek, readAt, hp, bind, Res.bind] at h
    | some c =>
      rw [skipComment_step buf n s c hp] at h
      split_ifs at h
      · cases h; simp
      · have := ih _ _ h
        simp at this
        omega

/-- Skipping white space keeps `start`, moves `current` forward only and never
lowers `line`. -/
theorem skipWhiteSpace_mono (buf : List Int) :
    ∀ (fuel : Nat) (s s1 : Scanner), skipWhiteSpace fuel buf s = Res.ok s1 →
      s1.start = s.start ∧ s.current ≤ s1.current ∧ s.line ≤ s1.line := by
  intro fuel
  induction fuel with
  | zero => intro s s1 h; simp [skipWhiteSpace] at h
  | succ n ih =>
    intro s s1 h
    cases hp : buf[s.current]? with
    | none => simp [skipWhiteSpace, peek, readAt, hp, bind, Res.bind] at h
    | some c =>
      rw [skipWhiteSpace_step buf n s c hp] at h
      split_ifs at h
      · have := ih _ _ h
        simp at this
        omega
      · have := ih _ _ h
        simp at this
        omega
      · cases hq : buf[s.current + 1]? with
        | none => simp [hq] at h
        | some d =>
          simp only [hq] at h
          split_ifs at h
          · cases hc : skipComment n buf s with
            | ok s2 =>
              simp only [hc, Res.bind] at h
              have h1 := skipComment_mono buf n s s2 hc
              have h2 := ih _ _ h
              omega
            | fault s2 => simp [hc, Res.bind] at h
            | timeout => simp [hc, Res.bind] at h
          · cases h; simp
      · cases h; simp

/-- The loop of `identifier` only moves `current`, and only forward. -/
theorem identifierLoop_mono (buf : List Int) :
    ∀ (fuel : Nat) (s s1 : Scanner), identifierLoop fuel buf s = Res.ok s1 →
      s1.start = s.start ∧ s.current ≤ s1.current ∧ s1.line = s.line := by
  intro fuel
  induction fuel with
  | zero => intro s s1 h; simp [identifierLoop] at h
  | succ n ih =>
    intro s s1 h
    cases hp : buf[s.current]? with
    | none => simp [identifierLoop, peek, readAt, hp, bind, Res.bind] at h
    | some c =>
      simp only [identifierLoop, peek, readAt, advance, hp, bind, Res.bind, pure] at h
      split_ifs at h
      · have := ih _ _ h
        simp at this
        omega
      · cases h; simp

/-- The digit loop of `number` only moves `current`, and only forward. -/
theorem digits_mono (buf : List Int) :
    ∀ (fuel : Nat) (s s1 : Scanner), digits fuel buf s = Res.ok s1 →
      s1.start = s.start ∧ s.current ≤ s1.current ∧ s1.line = s.line := by
  intro fuel
  induction fuel with
  | zero => intro s s1 h; simp [digits] at h
  | succ n ih =>
    intro s s1 h
    cases hp : buf[s.current]? with
    | none => simp [digits, peek, readAt, hp, bind, Res.bind] at h
    | some c =>
      simp only [digits, peek, readAt, advance, hp, bind, Res.bind, pure] at h
      split_ifs at h
      · have := ih _ _ h
        simp at this
        omega
      · cases h; simp

/-- The loop of `string` leaves both pointers where they are and never lowers
`line`. -/
theorem stringLoop_mono (buf : List Int) :
    ∀ (fuel : Nat) (s s1 : Scanner), stringLoop fuel buf s = Res.ok s1 →
      s1.start = s.start ∧ s1.current = s.current ∧ s.line ≤ s1.line := by
  intro fuel
  induction fuel with
  | zero => intro s s1 h; simp [stringLoop] at h
  | succ n ih =>
    intro s s1 h
    cases hp : buf[s.current]? with
    | none => simp [stringLoop, peek, readAt, hp, bind, Res.bind] at h
    | some c =>
      simp only [stringLoop, peek, readAt, isAtEnd, hp, bind, Res.bind, pure] at h
      by_cases hq : c = 34
      · simp [hq] at h; cases h; simp
      · by_cases h0 : c = 0
        · simp [hq, h0] at h; cases h; simp
        · simp only [hq, h0, ne_eq, not_false_eq_true, if_true, decide_False,
            Bool.false_eq_true, if_false] at h
          have := ih _ _ h
          split_ifs at this <;> (try simp at this) <;> omega

/-- The `checkKeyword` function answers its keyword kind or `TOKEN_IDENTIFIER`. -/
theorem checkKeyword_cases (buf : List Int) (s : Scanner) (a b : Nat) (rest : List Int)
    (type : TokenType) :
    checkKeyword buf s a b rest type = type ∨
      checkKeyword buf s a b rest type = TOKEN_IDENTIFIER := by
  unfold checkKeyword
  split <;> simp

/-- A kind other than `TOKEN_EOF` passed to `checkKeyword` does not come back
as `TOKEN_EOF`. -/
theorem checkKeyword_ne_eof (buf : List Int) (s : Scanner) (a b : Nat) (rest : List Int)
    (type : TokenType) (hne : type ≠ TOKEN_EOF) :
    ∀ ty, (pure (checkKeyword buf s a b rest type) : Res TokenType) = Res.ok ty →
      ty ≠ TOKEN_EOF := by
  intro ty h
  simp only [pure_eq_ok, Res.ok.injEq] at h
  subst h
  rcases checkKeyword_cases buf s a b rest type with e | e <;> rw [e]
  · exact hne
  · decide

/-- A property of the kinds both branches answer holds for the conditional. -/
theorem ne_eof_ite {p : Prop} [Decidable p] {a b : Res TokenType}
    (ha : ∀ ty, a = Res.ok ty → ty ≠ TOKEN_EOF) (hb : ∀ ty, b = Res.ok ty → ty ≠ TOKEN_EOF) :
    ∀ ty, (if p then a else b) = Res.ok ty → ty ≠ TOKEN_EOF := by
  intro ty h
  split at h
  · exact ha ty h
  · exact hb ty h

/-- A property of the kinds the continuation answers holds for the sequence. -/
theorem ne_eof_bind {α : Type} {x : Res α} {f : α → Res TokenType}
    (hf : ∀ a ty, f a = Res.ok ty → ty ≠ TOKEN_EOF) :
    ∀ ty, (x >>= f) = Res.ok ty → ty ≠ TOKEN_EOF := by
  intro ty h
  rw [bind_eq_ok] at h
  obtain ⟨a, -, h⟩ := h
  exact hf a ty h

/-- The `identiferType` function never answers `TOKEN_EOF`. -/
theorem identiferType_ne_eof (buf : List Int) (s : Scanner) :
    ∀ ty, identiferType buf s = Res.ok ty → ty ≠ TOKEN_EOF := by
  unfold identiferType
  refine ne_eof_bind (fun c => ?_)
  repeat' first
    | exact checkKeyword_ne_eof _ _ _ _ _ _ (by decide)
    | refine ne_eof_ite ?_ ?_
    | refine ne_eof_bind (fun d => ?_)
  intro ty h
  cases h
  decide

/-! ## The shape of a returned token -/

theorem advance_eq_ok (buf : List Int) (s : Scanner) (c : Int) (s1 : Scanner) :
    advance buf s = Res.ok (c, s1) ↔
      buf[s.current]? = some c ∧ s1 = { s with current := s.current + 1 } := by
  unfold advance readAt
  cases h : buf[s.current]? <;> simp [eq_comm]

theorem isAtEnd_eq_ok (buf : List Int) (s : Scanner) (e : Bool) :
    isAtEnd buf s = Res.ok e ↔ ∃ c, buf[s.current]? = some c ∧ e = decide (c = 0) := by
  unfold isAtEnd peek readAt
  cases h : buf[s.current]? <;> simp [eq_comm]

/-- What `identifier` returns: a token other than EOF for the lexeme between
`start` and the new `current`. -/
theorem identifier_shape (fuel : Nat) (buf : List Int) (s3 : Scanner) (t : Token)
    (s1 : Scanner) (h : identifier fuel buf s3 = Res.ok (t, s1)) :
    s1.start = s3.start ∧ s3.current ≤ s1.current ∧ s3.line ≤ s1.line ∧
      t.type ≠ TOKEN_EOF ∧ t.line = s1.line ∧
      ∀ k, t.start = LexemeStart.source k →
        k = s1.start ∧ t.length = (s1.current : Int) - (s1.start : Int) := by
  unfold identifier at h
  rw [bind_eq_ok] at h
  obtain ⟨s2, hloop, h⟩ := h
  rw [bind_eq_ok] at h
  obtain ⟨ty, hty, h⟩ := h
  have hm := identifierLoop_mono buf fuel s3 s2 hloop
  have hne := identiferType_ne_eof buf s2 ty hty
  simp only [pure_eq_ok, Res.ok.injEq, Prod.mk.injEq] at h
  obtain ⟨rfl, rfl⟩ := h
  refine ⟨hm.1, hm.2.1, by omega, hne, rfl, ?_⟩
  intro k hk
  simp only [makeToken, LexemeStart.source.injEq] at hk
  exact ⟨hk.symm, rfl⟩

/-- What `makeToken` builds in the state it is returned with has the shape the
token functions promise. -/
theorem makeToken_shape (type : TokenType) (s3 s1 : Scanner) (hs : s1.start = s3.start)
    (hc : s3.current ≤ s1.current) (hl : s3.line ≤ s1.line) (hne : type ≠ TOKEN_EOF) :
    s1.start = s3.start ∧ s3.current ≤ s1.current ∧ s3.line ≤ s1.line ∧
      (makeToken type s1).type ≠ TOKEN_EOF ∧ (makeToken type s1).line = s1.line ∧
      ∀ k, (makeToken type s1).start = LexemeStart.source k →
        k = s1.start ∧ (makeToken type s1).length = (s1.current : Int) - (s1.start : Int) := by
  refine ⟨hs, hc, hl, hne, rfl, ?_⟩
  intro k hk
  simp only [makeToken, LexemeStart.source.injEq] at hk
  exact ⟨hk.symm, rfl⟩

/-- What `errorToken` builds has the shape the token functions promise. -/
theorem errorToken_shape (msg : String) (s3 s1 : Scanner) (hs : s1.start = s3.start)
    (hc : s3.current ≤ s1.current) (hl : s3.line ≤ s1.line) :
    s1.start = s3.start ∧ s3.current ≤ s1.current ∧ s3.line ≤ s1.line ∧
      (errorToken msg s1).type ≠ TOKEN_EOF ∧ (errorToken msg s1).line = s1.line ∧
      ∀ k, (errorToken msg s1).start = LexemeStart.source k →
        k = s1.start ∧ (errorToken msg s1).length = (s1.current : Int) - (s1.start : Int) := by
  refine ⟨hs, hc, hl, by simp [errorToken], rfl, ?_⟩
  intro k hk
  simp [errorToken] at hk

/-- What `number` returns. -/
theorem number_shape (fuel : Nat) (buf : List Int) (s3 : Scanner) (t : Token)
    (s1 : Scanner) (h : number fuel buf s3 = Res.ok (t, s1)) :
    s1.start = s3.start ∧ s3.current ≤ s1.current ∧ s3.line ≤ s1.line ∧
      t.type ≠ TOKEN_EOF ∧ t.line = s1.line ∧
      ∀ k, t.start = LexemeStart.source k →
        k = s1.start ∧ t.length = (s1.current : Int) - (s1.start : Int) := by
  unfold number at h
  rw [bind_eq_ok] at h
  obtain ⟨s2, hd, h⟩ := h
  rw [bind_eq_ok] at h
  obtain ⟨c, -, h⟩ := h
  have hm := digits_mono buf fuel s3 s2 hd
  split at h
  · rw [bind_eq_ok] at h
    obtain ⟨d, -, h⟩ := h
    split at h
    · rw [bind_eq_ok] at h
      obtain ⟨⟨x, s4⟩, hadv, h⟩ := h
      rw [advance_eq_ok] at hadv
      obtain ⟨-, rfl⟩ := hadv
      rw [bind_eq_ok] at h
      obtain ⟨s5, hd2, h⟩ := h
      have hm2 := digits_mono buf fuel _ s5 hd2
      simp only [pure_eq_ok, Res.ok.injEq, Prod.mk.injEq] at h
      obtain ⟨rfl, rfl⟩ := h
      simp only at hm2
      exact makeToken_shape _ s3 _ (by omega) (by omega) (by omega) (by decide)
    · simp only [pure_eq_ok, Res.ok.injEq, Prod.mk.injEq] at h
      obtain ⟨rfl, rfl⟩ := h
      exact makeToken_shape _ s3 _ (by omega) (by omega) (by omega) (by decide)
  · simp only [pure_eq_ok, Res.ok.injEq, Prod.mk.injEq] at h
    obtain ⟨rfl, rfl⟩ := h
    exact makeToken_shape _ s3 _ (by omega) (by omega) (by omega) (by decide)

/-- What `string` returns. -/
theorem string_shape (fuel : Nat) (buf : List Int) (s3 : Scanner) (t : Token)
    (s1 : Scanner) (h : string fuel buf s3 = Res.ok (t, s1)) :
    s1.start = s3.start ∧ s3.current ≤ s1.current ∧ s3.line ≤ s1.line ∧
      t.type ≠ TOKEN_EOF ∧ t.line = s1.line ∧
      ∀ k, t.start = LexemeStart.source k →
        k = s1.start ∧ t.length = (s1.current : Int) - (s1.start : Int) := by
  unfold string at h
  rw [bind_eq_ok] at h
  obtain ⟨s2, hl, h⟩ := h
  rw [bind_eq_ok] at h
  obtain ⟨e, -, h⟩ := h
  have hm := stringLoop_mono buf fuel s3 s2 hl
  split at h
  · simp only [pure_eq_ok, Res.ok.injEq, Prod.mk.injEq] at h
    obtain ⟨rfl, rfl⟩ := h
    exact errorToken_shape _ s3 _ (by omega) (by omega) (by omega)
  · rw [bind_eq_ok] at h
    obtain ⟨⟨x, s4⟩, hadv, h⟩ := h
    rw [advance_eq_ok] at hadv
    obtain ⟨-, rfl⟩ := hadv
    simp only [pure_eq_ok, Res.ok.injEq, Prod.mk.injEq] at h
    obtain ⟨rfl, rfl⟩ := h
    exact makeToken_shape _ s3 _ (by simp; omega) (by simp; omega) (by simp; omega)
      (by decide)

/-- What the operator cases of `scanToken` return. -/
theorem operatorToken_shape (buf : List Int) (s3 : Scanner) (two one : TokenType)
    (h2 : two ≠ TOKEN_EOF) (h1 : one ≠ TOKEN_EOF) (t : Token) (s1 : Scanner)
    (h : operatorToken buf s3 two one = Res.ok (t, s1)) :
    s1.start = s3.start ∧ s3.current ≤ s1.current ∧ s3.line ≤ s1.line ∧
      t.type ≠ TOKEN_EOF ∧ t.line = s1.line ∧
      ∀ k, t.start = LexemeStart.source k →
        k = s1.start ∧ t.length = (s1.current : Int) - (s1.start : Int) := by
  unfold operatorToken at h
  rw [bind_eq_ok] at h
  obtain ⟨⟨m, s2⟩, hm, h⟩ := h
  simp only [pure_eq_ok, Res.ok.injEq, Prod.mk.injEq] at h
  obtain ⟨rfl, rfl⟩ := h
  have hs : s2.start = s3.start ∧ s3.current ≤ s2.current ∧ s2.line = s3.line := by
    unfold matchChar at hm
    rw [bind_eq_ok] at hm
    obtain ⟨e, -, hm⟩ := hm
    split at hm
    · simp only [pure_eq_ok, Res.ok.injEq, Prod.mk.injEq] at hm
      obtain ⟨-, rfl⟩ := hm
      simp
    · rw [bind_eq_ok] at hm
      obtain ⟨c, -, hm⟩ := hm
      split at hm <;>
        (simp only [pure_eq_ok, Res.ok.injEq, Prod.mk.injEq] at hm
         obtain ⟨-, rfl⟩ := hm
         simp)
  refine makeToken_shape _ s3 _ hs.1 hs.2.1 (by omega) ?_
  cases m <;> simp [h1, h2]

/-- A property of what both branches return holds for the conditional. -/
theorem ok_ite {p : Prop} [Decidable p] {a b : Res (Token × Scanner)}
    {P : Token → Scanner → Prop} (ha : ∀ t s, a = Res.ok (t, s) → P t s)
    (hb : ∀ t s, b = Res.ok (t, s) → P t s) :
    ∀ t s, (if p then a else b) = Res.ok (t, s) → P t s := by
  intro t s h
  split at h
  · exact ha t s h
  · exact hb t s h

/-- What the switch of `scanToken` returns. -/
theorem scanSwitch_shape (fuel : Nat) (buf : List Int) (s3 : Scanner) (c : Int) :
    ∀ (t : Token) (s1 : Scanner), scanSwitch fuel buf s3 c = Res.ok (t, s1) →
      s1.start = s3.start ∧ s3.current ≤ s1.current ∧ s3.line ≤ s1.line ∧
        t.type ≠ TOKEN_EOF ∧ t.line = s1.line ∧
        ∀ k, t.start = LexemeStart.source k →
          k = s1.start ∧ t.length = (s1.current : Int) - (s1.start : Int) := by
  unfold scanSwitch
  repeat' refine ok_ite ?_ ?_
  all_goals intro t s1 h
  all_goals first
    | exact operatorToken_shape buf s3 _ _ (by decide) (by decide) t s1 h
    | exact string_shape fuel buf s3 t s1 h
    | (simp only [pure_eq_ok, Res.ok.injEq, Prod.mk.injEq] at h
       obtain ⟨rfl, rfl⟩ := h
       first
         | exact makeToken_shape _ _ _ rfl (le_refl _) (le_refl _) (by decide)
         | exact errorToken_shape _ _ _ rfl (le_refl _) (le_refl _))

/-- What `scanToken` returns, for every buffer, state and fuel: the lexeme
starts at or after the old `current` and ends at the new one, the token
carries the new line, the line does not go down; an EOF token is returned at a
NUL with `start = current`, every other token with `start < current`. -/
theorem scanToken_shape (fuel : Nat) (buf : List Int) (s : Scanner) (t : Token)
    (s1 : Scanner) (h : scanToken fuel buf s = Res.ok (t, s1)) :
    s.current ≤ s1.start ∧ s1.start ≤ s1.current ∧ s.line ≤ s1.line ∧ t.line = s1.line ∧
      (∀ k, t.start = LexemeStart.source k →
        k = s1.start ∧ t.length = (s1.current : Int) - (s1.start : Int)) ∧
      (t.type = TOKEN_EOF →
        buf[s1.current]? = some 0 ∧ s1.start = s1.current ∧ t = makeToken TOKEN_EOF s1) ∧
      (t.type ≠ TOKEN_EOF → s1.start < s1.current) := by
  unfold scanToken at h
  rw [bind_eq_ok] at h
  obtain ⟨s0, hws, h⟩ := h
  have hm := skipWhiteSpace_mono buf fuel s s0 hws
  rw [bind_eq_ok] at h
  obtain ⟨e, he, h⟩ := h
  rw [isAtEnd_eq_ok] at he
  obtain ⟨c0, hc0, rfl⟩ := he
  split at h
  · rename_i hz
    simp only [pure_eq_ok, Res.ok.injEq, Prod.mk.injEq] at h
    obtain ⟨rfl, rfl⟩ := h
    simp only [decide_eq_true_eq] at hz
    subst hz
    refine ⟨hm.2.1, le_refl _, hm.2.2, rfl, ?_, ?_, ?_⟩
    · intro k hk
      simp only [makeToken, LexemeStart.source.injEq] at hk
      exact ⟨hk.symm, rfl⟩
    · intro _
      exact ⟨hc0, rfl, rfl⟩
    · intro hne
      exact absurd rfl hne
  · rw [bind_eq_ok] at h
    obtain ⟨⟨c, s3⟩, hadv, h⟩ := h
    rw [advance_eq_ok] at hadv
    obtain ⟨-, rfl⟩ := hadv
    have key : s1.start = s0.current ∧ s0.current + 1 ≤ s1.current ∧ s0.line ≤ s1.line ∧
        t.type ≠ TOKEN_EOF ∧ t.line = s1.line ∧
        ∀ k, t.start = LexemeStart.source k →
          k = s1.start ∧ t.length = (s1.current : Int) - (s1.start : Int) := by
      simp only at h
      split at h
      · exact identifier_shape fuel buf _ t s1 h
      · split at h
        · exact number_shape fuel buf _ t s1 h
        · exact scanSwitch_shape fuel buf _ c t s1 h
    obtain ⟨k1, k2, k3, k4, k5, k6⟩ := key
    refine ⟨by omega, by omega, by omega, k5, k6, fun he => absurd he k4, fun _ => by omega⟩

/-! ## C14: forward progress -/

/-- C14: for every buffer and every scanner state (those reached from
`initScanner` among them), a call of `scanToken` that returns a token of a kind
other than `TOKEN_EOF`, error tokens included, leaves `current` strictly
greater than it was; a returned source lexeme begins at or after the old
`current` and ends at the new one; and the source lexeme of the token the next
call returns begins at or after that end, so that no character belongs to two
returned tokens. -/
theorem scanToken_forward_progress (fuel : Nat) (buf : List Int) (s : Scanner) (t : Token)
    (s1 : Scanner) (h : scanToken fuel buf s = Res.ok (t, s1)) (hne : t.type ≠ TOKEN_EOF) :
    s.current < s1.current ∧
    (∀ k, t.start = LexemeStart.source k →
      s.current ≤ k ∧ (k : Int) + t.length = (s1.current : Int)) ∧
    (∀ fuel2 t2 s2, scanToken fuel2 buf s1 = Res.ok (t2, s2) →
      ∀ k k2, t.start = LexemeStart.source k → t2.start = LexemeStart.source k2 →
        (k : Int) + t.length ≤ (k2 : Int)) := by
  obtain ⟨a1, a2, -, -, a5, -, a7⟩ := scanToken_shape fuel buf s t s1 h
  have a8 := a7 hne
  refine ⟨by omega, ?_, ?_⟩
  · intro k hk
    obtain ⟨rfl, hlen⟩ := a5 k hk
    constructor
    · exact a1
    · rw [hlen]; omega
  · intro fuel2 t2 s2 h2 k k2 hk hk2
    obtain ⟨b1, -, -, -, b5, -, -⟩ := scanToken_shape fuel2 buf s1 t2 s2 h2
    obtain ⟨rfl, hlen⟩ := a5 k hk
    obtain ⟨rfl, -⟩ := b5 k2 hk2
    rw [hlen]
    omega

/-- C14 at a concrete input: scanning the two braces, the first call returns
the left brace and moves `current` from 0 to 1. -/
theorem scanToken_forward_progress_witness :
    scanToken 1 (cstr "\x7b\x7d") initScanner
        = Res.ok (tokenAt TOKEN_LEFT_BRACE 0 1, { start := 0, current := 1, line := 1 }) ∧
      (tokenAt TOKEN_LEFT_BRACE 0 1).type ≠ TOKEN_EOF ∧
      initScanner.current < (Scanner.mk 0 1 1).current :=
  ⟨rfl, by decide,
    (scanToken_forward_progress 1 (cstr "\x7b\x7d") initScanner (tokenAt TOKEN_LEFT_BRACE 0 1)
      { start := 0, current := 1, line := 1 } rfl (by decide)).1⟩

/-! ## C18: what `skipWhiteSpace` consumes -/

/-- The character at an offset and the text after it, from the text at the
offset. -/
theorem drop_eq_cons {buf : List Int} {i : Nat} {c : Int} {tl : List Int}
    (h : buf.drop i = c :: tl) : buf[i]? = some c ∧ buf.drop (i + 1) = tl := by
  constructor
  · have h0 := List.getElem?_drop buf i 0
    rw [h] at h0
    simpa using h0.symm
  · rw [← List.tail_drop, h]
    rfl

theorem consumed_zero (s : Scanner) : s.consumed 0 0 = s := by
  cases s
  simp [Scanner.consumed]

theorem consumed_succ (s : Scanner) (k l : Nat) :
    Scanner.consumed { s with current := s.current + 1 } k l = s.consumed (k + 1) l := by
  simp only [Scanner.consumed, Scanner.mk.injEq, true_and, and_true]
  omega

theorem consumed_succ_line (s : Scanner) (k l : Nat) :
    Scanner.consumed { s with current := s.current + 1, line := s.line + 1 } k l
      = s.consumed (k + 1) (l + 1) := by
  simp only [Scanner.consumed, Scanner.mk.injEq, true_and]
  constructor
  · omega
  · push_cast; ring

/-- At the terminating NUL neither loop consumes anything. -/
theorem skip_at_nul (buf : List Int) (s : Scanner) (h : buf[s.current]? = some 0) (n : Nat) :
    skipWhiteSpace (n + 1) buf s = Res.ok s ∧ skipComment (n + 1) buf s = Res.ok s := by
  constructor
  · rw [skipWhiteSpace_step buf n s 0 h]
    simp
  · rw [skipComment_step buf n s 0 h]
    simp

theorem newlines_cons_ne (c : Int) (l : List Int) (h : c ≠ 10) :
    newlines (c :: l) = newlines l := by
  simp [newlines, List.count_cons, h]

theorem newlines_cons_nl (l : List Int) : newlines (10 :: l) = newlines l + 1 := by
  simp [newlines, List.count_cons]

/-- A run of `skipWhiteSpace`, and of the comment loop followed by it, over the
text `rem` that remains before the NUL, against `insignificant`. -/
theorem skipWhiteSpace_run (buf rest : List Int) :
    ∀ (n : Nat) (rem : List Int), rem.length ≤ n → (∀ c ∈ rem, c ≠ 0) →
      ∀ s : Scanner, buf.drop s.current = rem ++ 0 :: rest →
        (∀ fuel, rem.length + 1 < fuel →
          skipWhiteSpace fuel buf s
            = Res.ok (s.consumed (insignificant false rem)
                (newlines (rem.take (insignificant false rem))))) ∧
        (∀ fuelC fuel, rem.length < fuelC → rem.length + 1 < fuel →
          Res.bind (skipComment fuelC buf s) (skipWhiteSpace fuel buf)
            = Res.ok (s.consumed (insignificant true rem)
                (newlines (rem.take (insignificant true rem))))) := by
  intro n
  induction n with
  | zero =>
    intro rem hlen hnul s hd
    have hr : rem = [] := List.length_eq_zero.mp (by omega)
    subst hr
    have hget := (drop_eq_cons (by simpa using hd)).1
    constructor
    · intro fuel hf
      obtain ⟨f, rfl⟩ : ∃ f, fuel = f + 1 := ⟨fuel - 1, by omega⟩
      simp [(skip_at_nul buf s hget f).1, insignificant, newlines, consumed_zero]
    · intro fuelC fuel hc hf
      obtain ⟨f, rfl⟩ : ∃ f, fuel = f + 1 := ⟨fuel - 1, by omega⟩
      obtain ⟨g, rfl⟩ : ∃ g, fuelC = g + 1 := ⟨fuelC - 1, by omega⟩
      simp [(skip_at_nul buf s hget f).1, (skip_at_nul buf s hget g).2, Res.bind,
        insignificant, newlines, consumed_zero]
  | succ n ih =>
    intro rem hlen hnul s hd
    cases rem with
    | nil =>
      have hget := (drop_eq_cons (by simpa using hd)).1
      constructor
      · intro fuel hf
        obtain ⟨f, rfl⟩ : ∃ f, fuel = f + 1 := ⟨fuel - 1, by omega⟩
        simp [(skip_at_nul buf s hget f).1, insignificant, newlines, consumed_zero]
      · intro fuelC fuel hc hf
        obtain ⟨f, rfl⟩ : ∃ f, fuel = f + 1 := ⟨fuel - 1, by omega⟩
        obtain ⟨g, rfl⟩ : ∃ g, fuelC = g + 1 := ⟨fuelC - 1, by omega⟩
        simp [(skip_at_nul buf s hget f).1, (skip_at_nul buf s hget g).2, Res.bind,
          insignificant, newlines, consumed_zero]
    | cons c cs =>
      have hc0 : c ≠ 0 := hnul c (by simp)
      have hnul1 : ∀ x ∈ cs, x ≠ 0 := fun x hx => hnul x (by simp [hx])
      have hlen1 : cs.length ≤ n := by simpa using hlen
      have hd1 : buf.drop s.current = c :: (cs ++ 0 :: rest) := by simpa using hd
      obtain ⟨hget, hdrop⟩ := drop_eq_cons hd1
      have part1 : ∀ fuel, (c :: cs).length + 1 < fuel →
          skipWhiteSpace fuel buf s
            = Res.ok (s.consumed (insignificant false (c :: cs))
                (newlines ((c :: cs).take (insignificant false (c :: cs))))) := by
        intro fuel hf
        obtain ⟨f, rfl⟩ : ∃ f, fuel = f + 1 := ⟨fuel - 1, by omega⟩
        simp only [List.length_cons] at hf
        rw [skipWhiteSpace_step buf f s c hget]
        by_cases h1 : c = 32 ∨ c = 13 ∨ c = 9
        · have h10 : c ≠ 10 := by omega
          have hi : insignificant false (c :: cs) = insignificant false cs + 1 := by
            rw [insignificant, if_pos (by omega)]
          rw [if_pos h1,
            (ih cs hlen1 hnul1 { s with current := s.current + 1 } hdrop).1 f (by omega),
            consumed_succ, hi, List.take_succ_cons, newlines_cons_ne c _ h10]
        · by_cases h2 : c = 10
          · subst h2
            have hi : insignificant false (10 :: cs) = insignificant false cs + 1 := by
              simp [insignificant]
            rw [if_neg h1, if_pos rfl,
              (ih cs hlen1 hnul1 { s with current := s.current + 1, line := s.line + 1 }
                hdrop).1 f (by omega),
              consumed_succ_line, hi, List.take_succ_cons, newlines_cons_nl]
          · by_cases h3 : c = 47
            · subst h3
              rw [if_neg h1, if_neg h2, if_pos rfl]
              cases cs with
              | nil =>
                have hget1 := (drop_eq_cons (by simpa using hdrop)).1
                simp [hget1, insignificant, newlines, consumed_zero]
              | cons d cs1 =>
                have hd2 : buf.drop (s.current + 1) = d :: (cs1 ++ 0 :: rest) := by
                  simpa using hdrop
                have hget1 := (drop_eq_cons hd2).1
                simp only [hget1]
                by_cases h4 : d = 47
                · subst h4
                  simp only [List.length_cons] at hf
                  obtain ⟨f1, rfl⟩ : ∃ f1, f = f1 + 1 := ⟨f - 1, by omega⟩
                  have hi : insignificant false (47 :: 47 :: cs1)
                      = insignificant true (47 :: cs1) + 1 := by
                    simp [insignificant]
                  have hrun := (ih (47 :: cs1) hlen1 hnul1
                    { s with current := s.current + 1 } hdrop).2 f1 (f1 + 1)
                    (by simp only [List.length_cons]; omega)
                    (by simp only [List.length_cons]; omega)
                  rw [if_pos rfl, skipComment_step buf f1 s 47 hget, if_neg (by decide),
                    hrun, consumed_succ, hi, List.take_succ_cons,
                    newlines_cons_ne 47 _ (by decide)]
                · have hi : insignificant false (47 :: d :: cs1) = 0 := by
                    simp [insignificant, h4]
                  rw [if_neg h4, hi]
                  simp [newlines, consumed_zero]
            · have hi : insignificant false (c :: cs) = 0 := by
                simp [insignificant, h1, h2, h3]
              rw [if_neg h1, if_neg h2, if_neg h3, hi]
              simp [newlines, consumed_zero]
      refine ⟨part1, ?_⟩
      intro fuelC fuel hc hf
      obtain ⟨g, rfl⟩ : ∃ g, fuelC = g + 1 := ⟨fuelC - 1, by omega⟩
      simp only [List.length_cons] at hc
      rw [skipComment_step buf g s c hget]
      by_cases h10 : c = 10
      · subst h10
        have hi : insignificant true (10 :: cs) = insignificant false (10 :: cs) := by
          simp [insignificant]
        rw [if_pos (Or.inl rfl), hi]
        exact part1 fuel hf
      · have hi : insignificant true (c :: cs) = insignificant true cs + 1 := by
          simp [insignificant, h10]
        rw [if_neg (by simp [h10, hc0]),
          (ih cs hlen1 hnul1 { s with current := s.current + 1 } hdrop).2 g fuel
            (by omega) (by simp only [List.length_cons] at hf; omega),
          consumed_succ, hi, List.take_succ_cons, newlines_cons_ne c _ h10]

/-- The insignificant prefix is a prefix: it is no longer than the text. -/
theorem insignificant_le (rem : List Int) : ∀ b, insignificant b rem ≤ rem.length := by
  induction rem with
  | nil => intro b; simp [insignificant]
  | cons c cs ih =>
    intro b
    cases b with
    | true =>
      rw [insignificant]
      have := ih (decide (c ≠ 10))
      simp only [List.length_cons]
      omega
    | false =>
      rw [insignificant]
      simp only [List.length_cons]
      split
      · have := ih false
        omega
      · split
        · have := ih true
          omega
        · omega

/-- Where `skipWhiteSpace` stops: at a character that is not white space and
does not start a line comment. -/
theorem skipWhiteSpace_stops (buf : List Int) :
    ∀ (fuel : Nat) (s s1 : Scanner), skipWhiteSpace fuel buf s = Res.ok s1 →
      ∃ c, buf[s1.current]? = some c ∧ c ≠ 32 ∧ c ≠ 13 ∧ c ≠ 9 ∧ c ≠ 10 ∧
        (c = 47 → buf[s1.current + 1]? ≠ some 47) := by
  intro fuel
  induction fuel with
  | zero => intro s s1 h; simp [skipWhiteSpace] at h
  | succ n ih =>
    intro s s1 h
    cases hp : buf[s.current]? with
    | none => simp [skipWhiteSpace, peek, readAt, hp, bind, Res.bind] at h
    | some c =>
      rw [skipWhiteSpace_step buf n s c hp] at h
      split_ifs at h with h1 h2 h3
      · exact ih _ _ h
      · exact ih _ _ h
      · cases hq : buf[s.current + 1]? with
        | none => simp [hq] at h
        | some d =>
          simp only [hq] at h
          split_ifs at h with h4
          · cases hc : skipComment n buf s with
            | ok s2 =>
              simp only [hc, Res.bind] at h
              exact ih _ _ h
            | fault s2 => simp [hc, Res.bind] at h
            | timeout => simp [hc, Res.bind] at h
          · cases h
            refine ⟨c, hp, by omega, by omega, by omega, h2, fun _ => ?_⟩
            rw [hq]
            simpa using h4
      · cases h
        exact ⟨c, hp, by omega, by omega, by omega, h2, fun hc => absurd hc h3⟩

/-- C18: in every state whose remaining text `rem` (the characters from
`current` up to the terminating NUL) lies inside the buffer, `skipWhiteSpace`
returns, given fuel for the characters of `rem`.  It leaves `current` at the
first position at or after the old one that is neither a space, tab, carriage
return or newline nor inside a line comment (the old `current` plus
`insignificant false rem`), where the character is not white space and does not
start a comment; it raises `line` by the number of newlines among the
characters it consumed; it does not move `current` past the NUL; and it
consumes nothing at a slash that is not followed by a slash. -/
theorem skipWhiteSpace_consumes_insignificant (buf rem rest : List Int) (s : Scanner)
    (fuel : Nat) (hrem : buf.drop s.current = rem ++ 0 :: rest) (hnul : ∀ c ∈ rem, c ≠ 0)
    (hfuel : rem.length + 1 < fuel) :
    skipWhiteSpace fuel buf s
      = Res.ok (s.consumed (insignificant false rem)
          (newlines (rem.take (insignificant false rem)))) ∧
    s.current + insignificant false rem ≤ s.current + rem.length ∧
    (∃ c, buf[s.current + insignificant false rem]? = some c ∧
      c ≠ 32 ∧ c ≠ 13 ∧ c ≠ 9 ∧ c ≠ 10 ∧
      (c = 47 → buf[s.current + insignificant false rem + 1]? ≠ some 47)) ∧
    (∀ cs, rem = 47 :: cs → cs.head? ≠ some 47 → skipWhiteSpace fuel buf s = Res.ok s) := by
  have hrun := (skipWhiteSpace_run buf rest rem.length rem (le_refl _) hnul s hrem).1 fuel hfuel
  refine ⟨hrun, ?_, ?_, ?_⟩
  · have := insignificant_le rem false
    omega
  · exact skipWhiteSpace_stops buf fuel s _ hrun
  · intro cs hcs hhead
    subst hcs
    have hi : insignificant false (47 :: cs) = 0 := by
      rw [insignificant, if_neg (by decide), if_neg (by simp [hhead])]
    rw [hrun, hi]
    simp [newlines, consumed_zero]

/-- C18 at a concrete input: from the start of the text space, newline,
`// x`, newline, tab, `/y`, the eight characters before the lone slash are
consumed and the line goes from 1 to 3. -/
theorem skipWhiteSpace_consumes_insignificant_witness :
    (cstr " \n// x\n\t/y").drop initScanner.current
        = [32, 10, 47, 47, 32, 120, 10, 9, 47, 121] ++ 0 :: [] ∧
      (∀ c ∈ ([32, 10, 47, 47, 32, 120, 10, 9, 47, 121] : List Int), c ≠ 0) ∧
      skipWhiteSpace 12 (cstr " \n// x\n\t/y") initScanner
        = Res.ok { start := 0, current := 8, line := 3 } :=
  ⟨rfl, by decide,
    (skipWhiteSpace_consumes_insignificant (cstr " \n// x\n\t/y")
      [32, 10, 47, 47, 32, 120, 10, 9, 47, 121] [] initScanner 12 rfl (by decide)
      (by decide)).1.trans rfl⟩

/-! ## C15 and C20: the end of the source -/

/-- At a NUL, in a state with `start = current`, `scanToken` returns the EOF
token of that state and leaves the state as it is. -/
theorem scanToken_at_nul (buf : List Int) (s : Scanner) (h0 : buf[s.current]? = some 0)
    (hs : s.start = s.current) (n : Nat) :
    scanToken (n + 1) buf s = Res.ok (makeToken TOKEN_EOF s, s) := by
  have he : ({ s with start := s.current } : Scanner) = s := by
    cases s
    simp only [Scanner.mk.injEq, and_true] at hs ⊢
    exact hs.symm
  unfold scanToken
  rw [(skip_at_nul buf s h0 n).1]
  simp [he, isAtEnd, peek, readAt, h0]

/-- C15: in every state whose remaining text `rem` (the characters from
`current` up to the terminating NUL) consists only of spaces, tabs, carriage
returns, newlines and line comments, that is, whose insignificant prefix is all
of `rem` (the empty remainder included), `scanToken` returns, given fuel for
the characters of `rem`, a `TOKEN_EOF` token of length 0 positioned at the NUL
that ends the source, whose line is the line before the call plus the number
of newlines in `rem`. -/
theorem scanToken_eof_after_insignificant (buf rem rest : List Int) (s : Scanner)
    (fuel : Nat) (hrem : buf.drop s.current = rem ++ 0 :: rest) (hnul : ∀ c ∈ rem, c ≠ 0)
    (hall : insignificant false rem = rem.length) (hfuel : rem.length + 1 < fuel) :
    scanToken fuel buf s
      = Res.ok ({ type := TOKEN_EOF, start := LexemeStart.source (s.current + rem.length),
                  length := 0, line := s.line + (newlines rem : Int) },
                { start := s.current + rem.length, current := s.current + rem.length,
                  line := s.line + (newlines rem : Int) }) ∧
    buf[s.current + rem.length]? = some 0 := by
  have hrun := (skipWhiteSpace_run buf rest rem.length rem (le_refl _) hnul s hrem).1 fuel hfuel
  rw [hall, List.take_length] at hrun
  have hend : buf.drop (s.current + rem.length) = 0 :: rest := by
    rw [← List.drop_drop, hrem, List.drop_left]
  have h0 := (drop_eq_cons hend).1
  refine ⟨?_, h0⟩
  unfold scanToken
  rw [hrun]
  simp [Scanner.consumed, isAtEnd, peek, readAt, h0, makeToken]

/-- C15 at a concrete input: after the brace of `{`, space, newline, `// c`,
the remaining six characters are white space and a comment, and the call
returns the EOF token at offset 7 on line 2. -/
theorem scanToken_eof_after_insignificant_witness :
    (cstr "\x7b \n// c").drop 1 = [32, 10, 47, 47, 32, 99] ++ 0 :: [] ∧
      (∀ c ∈ ([32, 10, 47, 47, 32, 99] : List Int), c ≠ 0) ∧
      insignificant false [32, 10, 47, 47, 32, 99] = 6 ∧
      scanToken 8 (cstr "\x7b \n// c") { start := 0, current := 1, line := 1 }
        = Res.ok ({ type := TOKEN_EOF, start := LexemeStart.source 7, length := 0, line := 2 },
                  { start := 7, current := 7, line := 2 }) :=
  ⟨rfl, by decide, by decide,
    (scanToken_eof_after_insignificant (cstr "\x7b \n// c") [32, 10, 47, 47, 32, 99] []
      { start := 0, current := 1, line := 1 } 8 rfl (by decide) (by decide)
      (by decide)).1.trans rfl⟩

/-- C20: once a call of `scanToken` has returned a `TOKEN_EOF` token, every
later call (with fuel for one turn of the white space loop) returns the same
token, of length 0 at the same offset and on the same line, and leaves the
scanner state, hence its `start`, `current` and `line`, unchanged. -/
theorem eof_is_stable (fuel : Nat) (buf : List Int) (s : Scanner) (t : Token) (s1 : Scanner)
    (h : scanToken fuel buf s = Res.ok (t, s1)) (ht : t.type = TOKEN_EOF) :
    (∀ n fuel2, nthCall n (fuel2 + 1) buf s1 = Res.ok (t, s1)) ∧
    t.start = LexemeStart.source s1.current ∧ t.length = 0 ∧ t.line = s1.line := by
  obtain ⟨-, -, -, -, -, a6, -⟩ := scanToken_shape fuel buf s t s1 h
  obtain ⟨h0, hs, rfl⟩ := a6 ht
  refine ⟨?_, ?_, ?_, rfl⟩
  · intro n fuel2
    induction n with
    | zero => exact scanToken_at_nul buf s1 h0 hs fuel2
    | succ n ih =>
      simp only [nthCall, bind, Res.bind, scanToken_at_nul buf s1 h0 hs fuel2]
      exact ih
  · simp [makeToken, hs]
  · simp [makeToken, hs]

/-- C20 at a concrete input: after the brace of the source `{` the call
returns EOF, and so does the third call after it. -/
theorem eof_is_stable_witness :
    scanToken 1 (cstr "\x7b") { start := 0, current := 1, line := 1 }
        = Res.ok (tokenAt TOKEN_EOF 1 0, { start := 1, current := 1, line := 1 }) ∧
      (tokenAt TOKEN_EOF 1 0).type = TOKEN_EOF ∧
      nthCall 2 1 (cstr "\x7b") { start := 1, current := 1, line := 1 }
        = Res.ok (tokenAt TOKEN_EOF 1 0, { start := 1, current := 1, line := 1 }) :=
  ⟨rfl, rfl,
    (eof_is_stable 1 (cstr "\x7b") { start := 0, current := 1, line := 1 }
      (tokenAt TOKEN_EOF 1 0) { start := 1, current := 1, line := 1 } rfl rfl).1 2 0⟩

/-! ## C16, C17 and C19: the helpers on the code -/

/-- C16 (`isAlpha` is true exactly for the ASCII letters and the underscore)
fails on the code.  As written, with `c <= 97` where `c >= 97` was meant,
`isAlpha` is true exactly for the characters up to `a`: it accepts the digit
`0` (48), the NUL terminator, the double quote (34), the space (32) and `@`
(64), and it rejects the letters `b` (98) and `z` (122). -/
theorem isAlpha_accepts_up_to_a :
    (∀ c : Int, isAlpha c = decide (c ≤ 97)) ∧
    [48, 0, 34, 32, 64].map isAlpha = [true, true, true, true, true] ∧
    [98, 122].map isAlpha = [false, false] ∧
    [65, 90, 95, 97].map isAlpha = [true, true, true, true] :=
  ⟨isAlpha_eq, by decide, by decide, by decide⟩

/-- C17 (`identiferType` answers a keyword kind only for the keyword's exact
spelling, and `TOKEN_IDENTIFIER` for every other lexeme starting with `f`)
fails on the code.  The case for `f` has no `break`, so a lexeme whose second
character is none of `a`, `o`, `u` runs into the case for `i`, which compares
the second character with `f`: the lexeme `ff` is classified `TOKEN_IF`.  The
lexemes `f` and `fx` are identifiers and `for`, `if` are recognised. -/
theorem identiferType_ff_is_if :
    identiferType (cstr "ff") { start := 0, current := 2, line := 1 } = Res.ok TOKEN_IF ∧
    identiferType (cstr "f") { start := 0, current := 1, line := 1 }
      = Res.ok TOKEN_IDENTIFIER ∧
    identiferType (cstr "fx") { start := 0, current := 2, line := 1 }
      = Res.ok TOKEN_IDENTIFIER ∧
    identiferType (cstr "for") { start := 0, current := 3, line := 1 } = Res.ok TOKEN_FOR ∧
    identiferType (cstr "if") { start := 0, current := 2, line := 1 } = Res.ok TOKEN_IF :=
  ⟨rfl, rfl, rfl, rfl, rfl⟩

/-- C19 (`string`, entered just past an opening quote, terminates having
consumed the characters up to the closing quote, with `line` raised once per
newline) fails on the code.  The loop of `string` never calls `advance`: on
the literal made of a quote, a newline and a quote, and on the four characters
`"hi"`, `string` returns for no amount of fuel; it returns only when the
closing quote (or the NUL) comes first, as in the empty literal.  The line test
is inverted as well: a turn of the loop at `h` raises `line`, a turn at a
newline leaves it. -/
theorem string_loop_never_advances :
    (∀ fuel, string fuel (cstr "\"\n\"") { start := 0, current := 1, line := 1 }
      = Res.timeout) ∧
    (∀ fuel, string fuel (cstr "\"hi\"") { start := 0, current := 1, line := 1 }
      = Res.timeout) ∧
    (∀ fuel, string (fuel + 1) (cstr "\"\"") { start := 0, current := 1, line := 1 }
      = Res.ok (tokenAt TOKEN_STRING 0 2, { start := 0, current := 2, line := 1 })) ∧
    (∀ fuel, stringLoop (fuel + 1) (cstr "\"hi\"") { start := 0, current := 1, line := 1 }
      = stringLoop fuel (cstr "\"hi\"") { start := 0, current := 1, line := 2 }) ∧
    (∀ fuel, stringLoop (fuel + 1) (cstr "\"\n\"") { start := 0, current := 1, line := 1 }
      = stringLoop fuel (cstr "\"\n\"") { start := 0, current := 1, line := 1 }) := by
  refine ⟨fun fuel => ?_, fun fuel => ?_, fun fuel => rfl, fun fuel => rfl, fun fuel => rfl⟩
  · have h := stringLoop_stuck (cstr "\"\n\"") 10 (by decide) (by decide) fuel
      { start := 0, current := 1, line := 1 } rfl
    simp [string, h, bind, Res.bind]
  · have h := stringLoop_stuck (cstr "\"hi\"") 104 (by decide) (by decide) fuel
      { start := 0, current := 1, line := 1 } rfl
    simp [string, h, bind, Res.bind]

end Clox
